import Mathlib

/-!
Shallow embedding of the layered stream-capability protocol from
`src/traits.rs` of the rust_worksheets repository, together with proofs
of the testable properties of its specification.

Rust `&mut self` methods are modelled as explicit state passing: a method
`fn f(&mut self) -> R` on a producer with state type `σ` becomes a Lean
function `σ → R × σ`.  Rust `i32` is modelled as `Int`; where two's
complement overflow matters it is made explicit: `wrap32` is the
release-profile wrap-around semantics of `i32` addition, and the
`Checked` variants model the overflow-checked (debug / `cargo test`)
profile, where overflow panics — a panic is modelled as `Option.none`
in the outer `Option` layer.  Rust `u32` results are modelled as `Nat`
(the cast `i as u32` is applied only on values already known
non-negative, where it is value-preserving).  The possibly-divergent
`while let` loops of the default methods are modelled with an explicit
fuel parameter: an outer `none` means the loop did not return within
`fuel` base calls, so divergence of a loop is `∀ fuel, result = none`.
-/

namespace Worksheets

/-- Lower bound of the Rust `i32` range. -/
def i32Min : Int := -2147483648

/-- Upper bound of the Rust `i32` range. -/
def i32Max : Int := 2147483647

/-- Two's-complement wrap-around of an integer into the `i32` range:
the release-profile semantics of Rust `i32` arithmetic. -/
def wrap32 (n : Int) : Int := (n + 2147483648) % 4294967296 - 2147483648

/-- The base stream capability.  Rust:
`trait IntStream { fn next(&mut self) -> Option<i32>; ... }`.
A trait is modelled as a structure holding the one required method;
producers with state type `σ` satisfy the capability by providing a
value of `IntStream σ`. -/
structure IntStream (σ : Type) where
  next : σ → Option Int × σ

/-- Default method `IntStream::next_nat` (Rust):
```
fn next_nat(&mut self) -> Option<u32> \x7b
    while let Some(i) = self.next() \x7b
        if i >= 0 \x7b return Some(i as u32); \x7d
    \x7d
    None
\x7d
```
The loop is modelled with fuel; the outer `none` means the loop made
`fuel` base calls without returning.  Rust's zero test agrees with
Lean's: `i as u32` for `0 ≤ i` is `i.toNat`. -/
def IntStream.next_nat (S : IntStream σ) : Nat → σ → Option (Option Nat × σ)
  | 0, _ => none
  | fuel + 1, s =>
    match S.next s with
    | (none, s') => some (none, s')
    | (some i, s') =>
      if 0 ≤ i then some (some i.toNat, s') else S.next_nat fuel s'

/-- The counting producer.  Rust: `struct Count(i32);`. -/
structure Count where
  val : Int
  deriving DecidableEq

/-- Rust `Count::advance_value`:
```
fn advance_value(&mut self) -> i32 \x7b
    let value = self.0;
    self.0 += 1;
    value
\x7d
```
modelled with release-profile (wrap-around) semantics for `+= 1`. -/
def Count.advance_value (c : Count) : Int × Count :=
  (c.val, ⟨wrap32 (c.val + 1)⟩)

/-- Rust `Count::advance_value` under the overflow-checked (debug /
`cargo test`) profile, where `self.0 += 1` panics at `i32::MAX`;
the panic is modelled as `none`. -/
def Count.advanceValueChecked (c : Count) : Option (Int × Count) :=
  if c.val = i32Max then none else some (c.val, ⟨c.val + 1⟩)

/-- Rust `impl IntStream for Count`:
`fn next(&mut self) -> Option<i32> { let i = self.advance_value(); Some(i) }`. -/
def Count.next (c : Count) : Option Int × Count :=
  let (i, c') := c.advance_value
  (some i, c')

/-- `Count`'s `next` under the overflow-checked profile (`none` = panic). -/
def Count.nextChecked (c : Count) : Option (Option Int × Count) :=
  match c.advanceValueChecked with
  | none => none
  | some (i, c') => some (some i, c')

/-- The `IntStream` capability instance for `Count`. -/
def CountStream : IntStream Count := ⟨Count.next⟩

/-- The constant producer.  Rust: `struct Constant(i32);` with
`impl IntStream for Constant { fn next(&mut self) -> Option<i32> { Some(self.0) } }`. -/
structure Constant where
  val : Int
  deriving DecidableEq

/-- `Constant`'s `next`: returns the stored value, mutates nothing. -/
def Constant.next (c : Constant) : Option Int × Constant :=
  (some c.val, c)

/-- The `IntStream` capability instance for `Constant`. -/
def ConstantStream : IntStream Constant := ⟨Constant.next⟩

/-- Supertrait method `EvenStream::next_even` (Rust):
```
fn next_even(&mut self) -> Option<i32> \x7b
    while let Some(i) = self.next() \x7b
        if i % 2 == 0 \x7b return Some(i); \x7d
    \x7d
    None
\x7d
```
Being defined for an arbitrary `S : IntStream σ`, this function is the
blanket impl `impl<T> EvenStream for T where T: IntStream`.  Rust's `%`
is the truncated remainder and Lean's is the Euclidean one, but the
test `i % 2 == 0` holds in both exactly when `i` is even. -/
def IntStream.next_even (S : IntStream σ) : Nat → σ → Option (Option Int × σ)
  | 0, _ => none
  | fuel + 1, s =>
    match S.next s with
    | (none, s') => some (none, s')
    | (some i, s') =>
      if i % 2 = 0 then some (some i, s') else S.next_even fuel s'

/-- Method `BoundedIntStream::bounded_next` with associated constant
`MAX`, passed explicitly (Rust fixes it per impl; `Count`'s is 5):
```
fn bounded_next(&mut self) -> Option<i32> \x7b
    let next = self.next()?;
    Some(next.min(Self::MAX))
\x7d
``` -/
def IntStream.bounded_next (S : IntStream σ) (MAX : Int) (s : σ) : Option Int × σ :=
  match S.next s with
  | (none, s') => (none, s')
  | (some v, s') => (some (min v MAX), s')

/-- `const MAX: i32 = 5` from `impl BoundedIntStream for Count`. -/
def CountMAX : Int := 5

/-- Instrumentation: the same stream with a base-call counter attached
to the state, used to state that a derived operation performs exactly
one (or exactly `k`) base calls. -/
def counted (S : IntStream σ) : IntStream (σ × Nat) :=
  ⟨fun p => ((S.next p.1).1, ((S.next p.1).2, p.2 + 1))⟩

/-- The associated-output stream capability.  Rust:
`trait Stream { type Output; fn next(&mut self) -> Option<Self::Output>; }`.
The associated type becomes a second type parameter. -/
structure Stream (σ : Type) (Output : Type) where
  next : σ → Option Output × σ

/-- Rust `impl<T> Stream for Vec<T>`:
`fn next(&mut self) -> Option<Self::Output> { self.pop() }`.
`Vec<T>` is modelled as `List T` in the vector's order; `pop` removes
and returns the last element (`none` when empty). -/
def vecStream (α : Type) : Stream (List α) α :=
  ⟨fun l => (l.getLast?, l.dropLast)⟩

/-- Rust `two_ints`:
```
fn two_ints(stream: &mut impl Stream<Output = i32>) -> (Option<i32>, Option<i32>) \x7b
    (stream.next(), stream.next())
\x7d
```
Rust evaluates the tuple left to right, so the first call's result is
the first component. -/
def two_ints (S : Stream σ Int) (s : σ) : (Option Int × Option Int) × σ :=
  let r1 := S.next s
  let r2 := S.next r1.2
  ((r1.1, r2.1), r2.2)

/-- Iterating an associated-output stream's `next` for `k` calls,
keeping only the state. -/
def iterNext (S : Stream σ β) : Nat → σ → σ
  | 0, s => s
  | k + 1, s => iterNext S k (S.next s).2

/-- Iterating a base stream's `next` for `k` calls, keeping only the
state. -/
def iterState (S : IntStream σ) : Nat → σ → σ
  | 0, s => s
  | k + 1, s => iterState S k (S.next s).2

/-- Three successive `bounded_next` calls on `Count(4)` with `Count`'s
associated constant `MAX = 5`, each call made on the state the previous
call returned. -/
def countFrom4Run1 : Option Int × Count :=
  IntStream.bounded_next CountStream CountMAX ⟨4⟩

def countFrom4Run2 : Option Int × Count :=
  IntStream.bounded_next CountStream CountMAX countFrom4Run1.2

def countFrom4Run3 : Option Int × Count :=
  IntStream.bounded_next CountStream CountMAX countFrom4Run2.2

theorem wrap32_eq_self {n : Int} (h1 : i32Min ≤ n) (h2 : n ≤ i32Max) :
    wrap32 n = n := by
  unfold wrap32
  unfold i32Min at h1
  unfold i32Max at h2
  omega

theorem wrap32_emod_two (n : Int) : wrap32 n % 2 = n % 2 := by
  unfold wrap32
  omega

theorem iterState_succ (S : IntStream σ) (k : Nat) (s : σ) :
    iterState S (k + 1) s = iterState S k (S.next s).2 := rfl

theorem iterNext_vec_nil (α : Type) (k : Nat) :
    iterNext (vecStream α) k [] = [] := by
  induction k with
  | zero => rfl
  | succ k ih => simpa [iterNext, vecStream] using ih

/-- Claim C1: once the `Vec`-backed producer's `next` (implemented as
`pop`) returns absence, every subsequent `next` call also returns
absence; no sequence of calls returns the producer from the Exhausted
state to the Active state. -/
theorem vec_exhaustion_monotone (α : Type) (l : List α)
    (h : ((vecStream α).next l).1 = none) (k : Nat) :
    ((vecStream α).next (iterNext (vecStream α) k ((vecStream α).next l).2)).1 = none := by
  have hnil : l = [] := by
    cases l with
    | nil => rfl
    | cons x xs =>
      simp [vecStream] at h
  subst hnil
  show ((vecStream α).next (iterNext (vecStream α) k [])).1 = none
  rw [iterNext_vec_nil]
  rfl

theorem vec_exhaustion_monotone_witness :
    ((vecStream Int).next []).1 = none ∧
      ((vecStream Int).next
        (iterNext (vecStream Int) 2 ((vecStream Int).next []).2)).1 = none :=
  ⟨rfl, vec_exhaustion_monotone Int [] rfl 2⟩

/-- Claim C2: `bounded_next` performs exactly one base `next` call
(visible on the instrumented stream's call counter), propagates
absence, and clamps a produced value `v` to `min v MAX`; for `Count`
started at 4 with `MAX = 5`, three successive calls return
`Some 4, Some 5, Some 5`. -/
theorem bounded_next_clamps :
    (∀ (σ : Type) (S : IntStream σ) (MAX : Int) (s : σ),
        IntStream.bounded_next S MAX s
          = (((S.next s).1).map (fun v => min v MAX), (S.next s).2)
        ∧ ((IntStream.bounded_next (counted S) MAX (s, 0)).2).2 = 1)
    ∧ (countFrom4Run1.1, countFrom4Run2.1, countFrom4Run3.1)
        = (some 4, some 5, some 5) := by
  refine ⟨fun σ S MAX s => ?_, by decide⟩
  rcases hs : S.next s with ⟨o, s'⟩
  cases o with
  | none => simp [IntStream.bounded_next, counted, hs]
  | some v => simp [IntStream.bounded_next, counted, hs]

/-- Claim C5: for the `Vec`-backed producer over `[1, 2, 3]`,
`two_ints` returns `(Some 3, Some 2)` — the first call's result first —
and the backing sequence afterward is exactly `[1]`. -/
theorem two_ints_pop_order :
    two_ints (vecStream Int) [1, 2, 3] = ((some 3, some 2), [1]) := by
  decide

/-- Claim C6: each implementer's `next`, when it returns a value,
applies that implementer's single-step state transition exactly once
and touches no other state: `Count.next` returns the current cursor and
the new state is the cursor incremented exactly once (the cursor is the
whole state), and `Constant.next` returns the stored value with the
state unchanged (its step is the identity). -/
theorem next_single_step_frame :
    (∀ c : Count, Count.next c = (some c.val, ⟨wrap32 (c.val + 1)⟩))
    ∧ (∀ c : Count, (Count.next c).2 = (Count.advance_value c).2)
    ∧ (∀ k : Constant, Constant.next k = (some k.val, k)) :=
  ⟨fun _ => rfl, fun _ => rfl, fun _ => rfl⟩

/-- Claim C8: `bounded_next` signals absence exactly when the single
underlying base call does: same resulting state as one base call,
exactly one base call on the instrumented stream, and a present base
value is never turned into absence — it is returned clamped. -/
theorem bounded_next_absence_iff :
    ∀ (σ : Type) (S : IntStream σ) (MAX : Int) (s : σ),
      ((IntStream.bounded_next S MAX s).1 = none ↔ (S.next s).1 = none)
      ∧ (IntStream.bounded_next S MAX s).2 = (S.next s).2
      ∧ ((IntStream.bounded_next (counted S) MAX (s, 0)).2).2 = 1
      ∧ ∀ v, (S.next s).1 = some v →
          (IntStream.bounded_next S MAX s).1 = some (min v MAX) := by
  intro σ S MAX s
  rcases hs : S.next s with ⟨o, s'⟩
  cases o with
  | none => simp [IntStream.bounded_next, counted, hs]
  | some v => simp [IntStream.bounded_next, counted, hs]

theorem bounded_next_absence_iff_witness :
    (IntStream.bounded_next CountStream 5 ⟨0⟩).1 = some (min 0 5) :=
  (bounded_next_absence_iff Count CountStream 5 ⟨0⟩).2.2.2 0 (by decide)

/-- Claim C9, counterexample at cursor `i32::MAX`: under the
overflow-checked profile (the one `cargo test` compiles with) the
increment in `next` panics, so no value is returned at all, and under
the unchecked profile the cursor is not incremented by one but wraps —
the code fixes no single overflow policy, and "for every cursor state,
`next` returns Some of the cursor and increments it by one" fails at
this input. -/
theorem count_next_overflow_cex :
    Count.nextChecked ⟨i32Max⟩ = none
    ∧ (Count.next ⟨i32Max⟩).2.val ≠ i32Max + 1
    ∧ (Count.next ⟨i32Max⟩).2.val = i32Min := by
  refine ⟨by decide, by decide, by decide⟩

/-- Claim C9 as amended: `Count.next` never returns the absence marker;
whenever `nextChecked` returns normally it returns a value; for every
cursor strictly below `i32::MAX` both profiles agree that `next`
returns `Some cursor` and increments the cursor by exactly one; at
`i32::MAX` the unchecked profile wraps to `i32::MIN` (and the checked
profile panics, per the counterexample) — a build-profile-dependent
behavior the code inherits rather than a policy it fixes. -/
theorem count_never_absent_amended :
    (∀ c : Count, (Count.next c).1.isSome)
    ∧ (∀ c : Count, ∀ r, Count.nextChecked c = some r → r.1.isSome)
    ∧ (∀ c : Count, i32Min ≤ c.val → c.val < i32Max →
        Count.next c = (some c.val, ⟨c.val + 1⟩)
        ∧ Count.nextChecked c = some (some c.val, ⟨c.val + 1⟩))
    ∧ Count.next ⟨i32Max⟩ = (some i32Max, ⟨i32Min⟩) := by
  refine ⟨fun c => rfl, ?_, ?_, by decide⟩
  · intro c r hr
    unfold Count.nextChecked Count.advanceValueChecked at hr
    by_cases h : c.val = i32Max
    · simp [h] at hr
    · simp [h] at hr
      subst hr
      rfl
  · intro c h1 h2
    constructor
    · have hw : wrap32 (c.val + 1) = c.val + 1 := by
        apply wrap32_eq_self
        · unfold i32Min at h1 ⊢
          omega
        · unfold i32Max at h2 ⊢
          omega
      simp [Count.next, Count.advance_value, hw]
    · unfold Count.nextChecked Count.advanceValueChecked
      have h : ¬ c.val = i32Max := by omega
      simp [h]

theorem count_never_absent_amended_witness :
    Count.next ⟨0⟩ = (some 0, ⟨1⟩)
    ∧ Count.nextChecked ⟨0⟩ = some (some 0, ⟨1⟩) :=
  count_never_absent_amended.2.2.1 ⟨0⟩ (by decide) (by decide)

theorem next_nat_first_nonneg (S : IntStream σ) :
    ∀ (fuel : Nat) (s s' : σ) (v : Nat),
      IntStream.next_nat S fuel s = some (some v, s') →
      ∃ j < fuel, (S.next (iterState S j s)).1 = some (v : Int)
        ∧ (∀ j' < j, ∃ i, (S.next (iterState S j' s)).1 = some i ∧ i < 0)
        ∧ s' = iterState S (j + 1) s := by
  intro fuel
  induction fuel with
  | zero =>
    intro s s' v h
    simp [IntStream.next_nat] at h
  | succ fuel ih =>
    intro s s' v h
    rcases hs : S.next s with ⟨o, s1⟩
    have hshift : ∀ j, iterState S (j + 1) s = iterState S j s1 := by
      intro j
      rw [iterState_succ, hs]
    simp only [IntStream.next_nat] at h
    rw [hs] at h
    cases o with
    | none => simp at h
    | some i =>
      by_cases hnn : 0 ≤ i
      · simp [hnn] at h
        refine ⟨0, by omega, ?_, by omega, ?_⟩
        · rw [show iterState S 0 s = s from rfl, hs, ← h.1,
            Int.toNat_of_nonneg hnn]
        · rw [hshift 0, show iterState S 0 s1 = s1 from rfl, h.2]
      · simp [hnn] at h
        obtain ⟨j, hj, hyield, hneg, hst⟩ := ih s1 s' v h
        refine ⟨j + 1, by omega, ?_, ?_, ?_⟩
        · rw [hshift j]; exact hyield
        · intro j' hj'
          cases j' with
          | zero =>
            exact ⟨i, by rw [show iterState S 0 s = s from rfl, hs], by omega⟩
          | succ j'' =>
            rw [hshift j'']
            exact hneg j'' (by omega)
        · rw [hshift (j + 1)]; exact hst

theorem next_nat_none_prop (S : IntStream σ) :
    ∀ (k : Nat) (s : σ),
      (∀ j < k, ∃ i, (S.next (iterState S j s)).1 = some i ∧ i < 0) →
      (S.next (iterState S k s)).1 = none →
      ∀ fuel, k < fuel →
      IntStream.next_nat S fuel s = some (none, iterState S (k + 1) s) := by
  intro k
  induction k with
  | zero =>
    intro s _ hnone fuel hf
    obtain ⟨f, rfl⟩ : ∃ f, fuel = f + 1 := ⟨fuel - 1, by omega⟩
    rcases hs : S.next s with ⟨o, s1⟩
    rw [show iterState S 0 s = s from rfl, hs] at hnone
    simp at hnone
    subst hnone
    simp only [IntStream.next_nat]
    rw [hs, iterState_succ, hs]
    rfl
  | succ k ih =>
    intro s hneg hnone fuel hf
    obtain ⟨f, rfl⟩ : ∃ f, fuel = f + 1 := ⟨fuel - 1, by omega⟩
    rcases hs : S.next s with ⟨o, s1⟩
    have hshift : ∀ j, iterState S (j + 1) s = iterState S j s1 := by
      intro j
      rw [iterState_succ, hs]
    obtain ⟨i, hi, hineg⟩ := hneg 0 (by omega)
    rw [show iterState S 0 s = s from rfl, hs] at hi
    simp at hi
    subst hi
    simp only [IntStream.next_nat]
    rw [hs]
    simp only [show ¬ (0 ≤ i) from by omega, if_false]
    rw [hshift (k + 1)]
    refine ih s1 ?_ ?_ f (by omega)
    · intro j hj
      rw [← hshift j]
      exact hneg (j + 1) (by omega)
    · rw [← hshift k]
      exact hnone

/-- Claim C3: whenever `next_nat` returns a value `v` (of type `u32`,
modelled as `Nat`), that value is the first non-negative element the
base stream produced — in particular never negative — with every
earlier base element negative and silently skipped; when the base
stream signals absence after producing only negatives, `next_nat`
propagates the absence; and for `Count` started at −5 the first call
returns `Some 0` (in 6 base calls), leaving the cursor at 1. -/
theorem next_nat_spec :
    (∀ (σ : Type) (S : IntStream σ) (fuel : Nat) (s s' : σ) (v : Nat),
        IntStream.next_nat S fuel s = some (some v, s') →
        0 ≤ (v : Int)
        ∧ ∃ j < fuel, (S.next (iterState S j s)).1 = some (v : Int)
            ∧ (∀ j' < j, ∃ i, (S.next (iterState S j' s)).1 = some i ∧ i < 0)
            ∧ s' = iterState S (j + 1) s)
    ∧ (∀ (σ : Type) (S : IntStream σ) (k : Nat) (s : σ),
        (∀ j < k, ∃ i, (S.next (iterState S j s)).1 = some i ∧ i < 0) →
        (S.next (iterState S k s)).1 = none →
        ∀ fuel, k < fuel →
        IntStream.next_nat S fuel s = some (none, iterState S (k + 1) s))
    ∧ IntStream.next_nat CountStream 6 ⟨-5⟩ = some (some 0, ⟨1⟩) := by
  refine ⟨?_, ?_, by decide⟩
  · intro σ S fuel s s' v h
    exact ⟨Int.natCast_nonneg v, next_nat_first_nonneg S fuel s s' v h⟩
  · intro σ S k s hneg hnone fuel hf
    exact next_nat_none_prop S k s hneg hnone fuel hf

theorem next_nat_spec_witness :
    IntStream.next_nat (⟨(vecStream Int).next⟩ : IntStream (List Int)) 3 [-3]
      = some (none, iterState (⟨(vecStream Int).next⟩ : IntStream (List Int)) 2 [-3]) := by
  refine next_nat_spec.2.1 (List Int) ⟨(vecStream Int).next⟩ 1 [-3] ?_ (by decide) 3 (by omega)
  intro j hj
  have hj0 : j = 0 := by omega
  subst hj0
  exact ⟨-3, by decide, by decide⟩

theorem next_even_never_odd (S : IntStream σ) :
    ∀ (fuel : Nat) (s s' : σ) (v : Int),
      IntStream.next_even S fuel s = some (some v, s') → v % 2 = 0 := by
  intro fuel
  induction fuel with
  | zero =>
    intro s s' v h
    simp [IntStream.next_even] at h
  | succ fuel ih =>
    intro s s' v h
    rcases hs : S.next s with ⟨o, s1⟩
    simp only [IntStream.next_even] at h
    rw [hs] at h
    cases o with
    | none => simp at h
    | some i =>
      by_cases he : i % 2 = 0
      · simp [he] at h
        rw [← h.1]
        exact he
      · simp [he] at h
        exact ih s1 s' v h

theorem next_even_first_even (S : IntStream σ) :
    ∀ (fuel : Nat) (s s' : σ) (v : Int),
      IntStream.next_even S fuel s = some (some v, s') →
      ∃ j < fuel, (S.next (iterState S j s)).1 = some v
        ∧ (∀ j' < j, ∃ i, (S.next (iterState S j' s)).1 = some i ∧ ¬ i % 2 = 0)
        ∧ s' = iterState S (j + 1) s := by
  intro fuel
  induction fuel with
  | zero =>
    intro s s' v h
    simp [IntStream.next_even] at h
  | succ fuel ih =>
    intro s s' v h
    rcases hs : S.next s with ⟨o, s1⟩
    have hshift : ∀ j, iterState S (j + 1) s = iterState S j s1 := by
      intro j
      rw [iterState_succ, hs]
    simp only [IntStream.next_even] at h
    rw [hs] at h
    cases o with
    | none => simp at h
    | some i =>
      by_cases he : i % 2 = 0
      · simp [he] at h
        refine ⟨0, by omega, ?_, by omega, ?_⟩
        · rw [show iterState S 0 s = s from rfl, hs, h.1]
        · rw [hshift 0, show iterState S 0 s1 = s1 from rfl, h.2]
      · simp [he] at h
        obtain ⟨j, hj, hyield, hodd, hst⟩ := ih s1 s' v h
        refine ⟨j + 1, by omega, ?_, ?_, ?_⟩
        · rw [hshift j]; exact hyield
        · intro j' hj'
          cases j' with
          | zero =>
            exact ⟨i, by rw [show iterState S 0 s = s from rfl, hs], he⟩
          | succ j'' =>
            rw [hshift j'']
            exact hodd j'' (by omega)
        · rw [hshift (j + 1)]; exact hst

theorem next_even_none_prop (S : IntStream σ) :
    ∀ (k : Nat) (s : σ),
      (∀ j < k, ∃ i, (S.next (iterState S j s)).1 = some i ∧ ¬ i % 2 = 0) →
      (S.next (iterState S k s)).1 = none →
      ∀ fuel, k < fuel →
      IntStream.next_even S fuel s = some (none, iterState S (k + 1) s) := by
  intro k
  induction k with
  | zero =>
    intro s _ hnone fuel hf
    obtain ⟨f, rfl⟩ : ∃ f, fuel = f + 1 := ⟨fuel - 1, by omega⟩
    rcases hs : S.next s with ⟨o, s1⟩
    rw [show iterState S 0 s = s from rfl, hs] at hnone
    simp at hnone
    subst hnone
    simp only [IntStream.next_even]
    rw [hs, iterState_succ, hs]
    rfl
  | succ k ih =>
    intro s hodd hnone fuel hf
    obtain ⟨f, rfl⟩ : ∃ f, fuel = f + 1 := ⟨fuel - 1, by omega⟩
    rcases hs : S.next s with ⟨o, s1⟩
    have hshift : ∀ j, iterState S (j + 1) s = iterState S j s1 := by
      intro j
      rw [iterState_succ, hs]
    obtain ⟨i, hi, hiodd⟩ := hodd 0 (by omega)
    rw [show iterState S 0 s = s from rfl, hs] at hi
    simp at hi
    subst hi
    simp only [IntStream.next_even]
    rw [hs]
    simp only [hiodd, if_false]
    rw [hshift (k + 1)]
    refine ih s1 ?_ ?_ f (by omega)
    · intro j hj
      rw [← hshift j]
      exact hodd (j + 1) (by omega)
    · rw [← hshift k]
      exact hnone

/-- Claim C4: `next_even` — available on every implementer of the base
capability, being defined for an arbitrary `S : IntStream σ` exactly as
the blanket impl `impl<T> EvenStream for T where T: IntStream` makes it
available on every `IntStream` type — never returns an odd value, and
any value it returns is the *first* even element the base stream
produced: every earlier base element was odd and was skipped, and the
state is left exactly past that element; when the base stream signals
absence after producing only odd elements it propagates the absence;
and for `Count` started at 1 two successive calls return `Some 2` then
`Some 4`. -/
theorem next_even_spec :
    (∀ (σ : Type) (S : IntStream σ) (fuel : Nat) (s s' : σ) (v : Int),
        IntStream.next_even S fuel s = some (some v, s') →
        v % 2 = 0
        ∧ ∃ j < fuel, (S.next (iterState S j s)).1 = some v
            ∧ (∀ j' < j, ∃ i, (S.next (iterState S j' s)).1 = some i ∧ ¬ i % 2 = 0)
            ∧ s' = iterState S (j + 1) s)
    ∧ (∀ (σ : Type) (S : IntStream σ) (k : Nat) (s : σ),
        (∀ j < k, ∃ i, (S.next (iterState S j s)).1 = some i ∧ ¬ i % 2 = 0) →
        (S.next (iterState S k s)).1 = none →
        ∀ fuel, k < fuel →
        IntStream.next_even S fuel s = some (none, iterState S (k + 1) s))
    ∧ IntStream.next_even CountStream 2 ⟨1⟩ = some (some 2, ⟨3⟩)
    ∧ IntStream.next_even CountStream 2 ⟨3⟩ = some (some 4, ⟨5⟩) := by
  refine ⟨?_, ?_, by decide, by decide⟩
  · intro σ S fuel s s' v h
    exact ⟨next_even_never_odd S fuel s s' v h,
      next_even_first_even S fuel s s' v h⟩
  · intro σ S k s hodd hnone fuel hf
    exact next_even_none_prop S k s hodd hnone fuel hf

theorem next_even_spec_witness :
    IntStream.next_even (⟨(vecStream Int).next⟩ : IntStream (List Int)) 3 [-3]
      = some (none, iterState (⟨(vecStream Int).next⟩ : IntStream (List Int)) 2 [-3]) := by
  refine next_even_spec.2.1 (List Int) ⟨(vecStream Int).next⟩ 1 [-3] ?_ (by decide) 3 (by omega)
  intro j hj
  have hj0 : j = 0 := by omega
  subst hj0
  exact ⟨-3, by decide, by decide⟩

theorem next_even_constant_one_none (n : Nat) :
    IntStream.next_even ConstantStream n ⟨1⟩ = none := by
  induction n with
  | zero => rfl
  | succ n ih =>
    simp only [IntStream.next_even, ConstantStream, Constant.next]
    simpa [show ¬ ((1 : Int) % 2 = 0) from by decide] using ih

/-- Claim C7, counterexample: `next_even` does not terminate on every
implementer of the base capability — on `Constant(1)` (whose `next`
always returns `Some 1`, an odd value) the loop makes any number of
base calls without ever returning. -/
theorem next_even_constant_diverges_cex :
    ¬ ∃ (n : Nat) (r : Option Int × Constant),
        IntStream.next_even ConstantStream n ⟨1⟩ = some r := by
  rintro ⟨n, r, h⟩
  rw [next_even_constant_one_none n] at h
  exact Option.noConfusion h

theorem next_even_succ (S : IntStream σ) (fuel : Nat) (s : σ) :
    IntStream.next_even S (fuel + 1) s
      = match S.next s with
        | (none, s') => some (none, s')
        | (some i, s') =>
          if i % 2 = 0 then some (some i, s') else IntStream.next_even S fuel s' := by
  rfl

theorem count_next_nat_nonneg (c : Count) (h : 0 ≤ c.val) (fuel : Nat) :
    IntStream.next_nat CountStream (fuel + 1) c
      = some (some c.val.toNat, ⟨wrap32 (c.val + 1)⟩) := by
  simp [IntStream.next_nat, CountStream, Count.next, Count.advance_value, h]

theorem count_next_nat_terminates :
    ∀ (m : Nat) (c : Count), c.val.natAbs ≤ m → i32Min ≤ c.val → c.val ≤ i32Max →
      ∃ r, IntStream.next_nat CountStream (c.val.natAbs + 1) c = some r := by
  intro m
  induction m with
  | zero =>
    intro c hm _ _
    have h0 : 0 ≤ c.val := by omega
    exact ⟨_, count_next_nat_nonneg c h0 _⟩
  | succ m ih =>
    intro c hm h1 h2
    by_cases h0 : 0 ≤ c.val
    · exact ⟨_, count_next_nat_nonneg c h0 _⟩
    · push_neg at h0
      have hw : wrap32 (c.val + 1) = c.val + 1 := by
        apply wrap32_eq_self
        · unfold i32Min at h1 ⊢
          omega
        · unfold i32Max at h2 ⊢
          omega
      have hna : c.val.natAbs = (c.val + 1).natAbs + 1 := by omega
      have hstep : IntStream.next_nat CountStream (c.val.natAbs + 1) c
          = IntStream.next_nat CountStream c.val.natAbs ⟨c.val + 1⟩ := by
        simp [IntStream.next_nat, CountStream, Count.next, Count.advance_value,
          show ¬ (0 ≤ c.val) from by omega, hw]
      rw [hstep, hna]
      exact ih ⟨c.val + 1⟩ (by show (c.val + 1).natAbs ≤ m; omega)
        (by show i32Min ≤ c.val + 1; unfold i32Min at h1 ⊢; omega)
        (by show c.val + 1 ≤ i32Max; unfold i32Max at h2 ⊢; omega)

/-- Claim C7 as amended: `next` and `bounded_next` always return after
exactly one base call (the instrumented stream's counter is 1);
`next_even` terminates on `Count` from every cursor within two base
calls, and `next_nat` terminates on `Count` from every in-range cursor
within `|cursor| + 1` base calls; but `next_nat` and `next_even` are
unbounded loops and do not terminate on every implementer — on a
`Constant` with an odd stored value `next_even` never returns (see the
counterexample). -/
theorem ops_terminate_amended :
    (∀ (σ : Type) (S : IntStream σ) (MAX : Int) (s : σ),
        ((IntStream.bounded_next (counted S) MAX (s, 0)).2).2 = 1)
    ∧ (∀ c : Count, ∃ r, IntStream.next_even CountStream 2 c = some r)
    ∧ (∀ c : Count, i32Min ≤ c.val → c.val ≤ i32Max →
        ∃ r, IntStream.next_nat CountStream (c.val.natAbs + 1) c = some r) := by
  refine ⟨?_, ?_, ?_⟩
  · intro σ S MAX s
    rcases hs : S.next s with ⟨o, s1⟩
    cases o with
    | none => simp [IntStream.bounded_next, counted, hs]
    | some v => simp [IntStream.bounded_next, counted, hs]
  · intro c
    by_cases he : c.val % 2 = 0
    · refine ⟨(some c.val, ⟨wrap32 (c.val + 1)⟩), ?_⟩
      show IntStream.next_even CountStream (1 + 1) c = _
      rw [next_even_succ]
      simp [CountStream, Count.next, Count.advance_value, he]
    · have he2 : wrap32 (c.val + 1) % 2 = 0 := by
        rw [wrap32_emod_two]
        omega
      refine ⟨(some (wrap32 (c.val + 1)), ⟨wrap32 (wrap32 (c.val + 1) + 1)⟩), ?_⟩
      show IntStream.next_even CountStream (1 + 1) c = _
      rw [next_even_succ]
      simp only [CountStream, Count.next, Count.advance_value, he, if_false]
      show IntStream.next_even CountStream (0 + 1) _ = _
      rw [next_even_succ]
      simp [CountStream, Count.next, Count.advance_value, he2]
  · intro c h1 h2
    exact count_next_nat_terminates c.val.natAbs c (by omega) h1 h2

theorem ops_terminate_amended_witness :
    ∃ r, IntStream.next_nat CountStream ((Count.mk (-5)).val.natAbs + 1) ⟨-5⟩
      = some r :=
  ops_terminate_amended.2.2 ⟨-5⟩ (by decide) (by decide)

/-- Claim C10: the evenness filter does not imply non-negativity — for
`Count` started at −4, the first `next_even` call returns `Some (−4)`,
a negative (even) value, leaving the cursor at −3. -/
theorem next_even_negative :
    IntStream.next_even CountStream 1 ⟨-4⟩ = some (some (-4), ⟨-3⟩)
    ∧ (-4 : Int) < 0 := by
  refine ⟨by decide, by decide⟩

end Worksheets
